import Mathlib

/-!
# Verification of the self-evolution feedback pipeline

Shallow embedding of the line-diff engine, modification classifier,
satisfaction scorer, time-decay step and the three ingestion hooks of the
repository (`hooks/detect-modifications.js`, `hooks/collect-feedback.js`,
`hooks/record-execution.js`), together with proofs of the specified
properties.

Numbers: JavaScript arithmetic on these code paths stays on small exact
values, so it is modelled over `ℚ` (and `ℝ` for the exponential decay
step).  `Math.round x` is `⌊x + 1/2⌋`, JavaScript's round-half-up.
-/

namespace SelfEvolution

/-- JavaScript `Math.round`: round half towards positive infinity. -/
def jsRound (q : ℚ) : ℤ := ⌊q + 1/2⌋

/-- `Math.round(x * 10) / 10`: round to one decimal place. -/
def round1 (q : ℚ) : ℚ := ((jsRound (q * 10) : ℤ) : ℚ) / 10

/-- Region tag used in `calculateDetailedDiff`'s `affected_regions`. -/
inductive RegionType where
  | modified
  | added
  | removed
deriving DecidableEq, Repr

/-- One affected region `{start, end, type}` (`end` is a Lean keyword,
renamed `stop`). -/
structure Region where
  start : ℕ
  stop : ℕ
  type : RegionType
deriving DecidableEq, Repr

/-- Per-index difference flags: entry `i` is `true` iff
`beforeLines[i] !== afterLines[i]`; the list has length
`min before.length after.length`, matching the loop bound `minLength`. -/
def diffFlags (before after : List String) : List Bool :=
  List.zipWith (fun a b => decide (a ≠ b)) before after

/-- The region-accumulation loop of `calculateDetailedDiff`
(detect-modifications.js, lines 168-186): walk the difference flags with
the current open region (`currentRegion`), closing it when an equal line
is met and flushing the pending region after the loop. -/
def runsAux : List Bool → ℕ → Option (ℕ × ℕ) → List Region
  | [], _, none => []
  | [], _, some (s, e) => [⟨s, e, .modified⟩]
  | true :: rest, i, none => runsAux rest (i + 1) (some (i, i))
  | false :: rest, i, none => runsAux rest (i + 1) none
  | true :: rest, i, some (s, _e) => runsAux rest (i + 1) (some (s, i))
  | false :: rest, i, some (s, e) => ⟨s, e, .modified⟩ :: runsAux rest (i + 1) none

/-- Result record of `calculateDetailedDiff`. -/
structure DetailedDiff where
  added : ℕ
  removed : ℕ
  modified : ℕ
  changePercentage : ℚ
  regions : List Region
deriving DecidableEq, Repr

/-- `calculateDetailedDiff` (detect-modifications.js, lines 156-214):
positional line diff producing added/removed/modified counts, a rounded
change percentage and the affected regions. `addedInt` is the raw signed
`afterLines.length - beforeLines.length`. -/
def calculateDetailedDiff (before after : List String) : DetailedDiff :=
  let addedInt : ℤ := (after.length : ℤ) - (before.length : ℤ)
  let removed : ℕ := if addedInt < 0 then addedInt.natAbs else 0
  let flags := diffFlags before after
  let modifiedLines : ℕ := flags.count true
  let modifiedRegions := runsAux flags 0 none
  let regions : List Region :=
    if 0 < addedInt then
      modifiedRegions ++ [⟨before.length, after.length - 1, .added⟩]
    else if 0 < removed then
      modifiedRegions ++ [⟨min before.length after.length, before.length - 1, .removed⟩]
    else modifiedRegions
  let totalLines : ℕ := max before.length after.length
  let changePercentage : ℚ :=
    if 0 < totalLines then
      round1 (((modifiedLines : ℚ) + (addedInt.natAbs : ℚ)) / (totalLines : ℚ) * 100)
    else 0
  { added := if 0 < addedInt then addedInt.natAbs else 0
    removed := removed
    modified := modifiedLines
    changePercentage := changePercentage
    regions := regions }

/-- Result record of `calculateDiff` (collect-feedback.js). -/
structure SimpleDiff where
  added : ℕ
  removed : ℕ
  modified : ℕ
  changePercentage : ℚ
deriving DecidableEq, Repr

/-- `calculateDiff` (collect-feedback.js, lines 182-207): the session-end
variant of the positional diff.  Its `changePercentage` divides only
`changedLines` by the total — it does not add the length delta. -/
def calculateDiff (original modified : List String) : SimpleDiff :=
  let addedInt : ℤ := (modified.length : ℤ) - (original.length : ℤ)
  let removed : ℕ := if addedInt < 0 then addedInt.natAbs else 0
  let changedLines : ℕ := (diffFlags original modified).count true
  let totalLines : ℕ := max original.length modified.length
  let changePercentage : ℚ :=
    if 0 < totalLines then round1 ((changedLines : ℚ) / (totalLines : ℚ) * 100)
    else 0
  { added := if 0 < addedInt then addedInt.natAbs else 0
    removed := removed
    modified := changedLines
    changePercentage := changePercentage }

/-- Count of indices `i < min len` with `before[i] ≠ after[i]` — the
spec's wording for the `modified` statistic. -/
def mismatchCount (before after : List String) : ℕ :=
  ((List.range (min before.length after.length)).filter
    (fun i => decide (before.getD i "" ≠ after.getD i ""))).length

/-- The spec's change-percentage formula:
`round(100 × (modified + |len(after) − len(before)|) / max(len(before), len(after)), 1)`,
taken to be `0` when both sequences are empty. -/
def specChangePercentage (before after : List String) : ℚ :=
  let m : ℕ := max before.length after.length
  if m = 0 then 0
  else round1 (100 * ((mismatchCount before after : ℚ) +
    (((after.length : ℤ) - (before.length : ℤ)).natAbs : ℚ)) / (m : ℚ))

/-- The spec's change-percentage formula without the length-delta term,
which is what `calculateDiff` actually computes:
`round(100 × modified / max(len(before), len(after)), 1)`, `0` on empty. -/
def specChangePercentageNoDelta (before after : List String) : ℚ :=
  let m : ℕ := max before.length after.length
  if m = 0 then 0 else round1 (100 * (mismatchCount before after : ℚ) / (m : ℚ))

/-! ### Elementary facts about the rounding helpers -/

theorem jsRound_eq (q : ℚ) (z : ℤ) (h₁ : (z : ℚ) ≤ q + 1/2) (h₂ : q + 1/2 < z + 1) :
    jsRound q = z := by
  rw [jsRound]
  exact Int.floor_eq_iff.mpr ⟨h₁, h₂⟩

theorem jsRound_mono {p q : ℚ} (h : p ≤ q) : jsRound p ≤ jsRound q :=
  Int.floor_le_floor (by linarith)

theorem round1_eq (q : ℚ) (z : ℤ) (h₁ : (z : ℚ) ≤ q * 10 + 1/2) (h₂ : q * 10 + 1/2 < z + 1) :
    round1 q = (z : ℚ) / 10 := by
  rw [round1, jsRound_eq (q * 10) z h₁ h₂]

theorem round1_zero : round1 0 = 0 := by
  rw [round1_eq 0 0 (by norm_num) (by norm_num)]
  norm_num

/-! ### Bridging the loop-computed `modified` count to the spec's counting -/

theorem length_diffFlags (before after : List String) :
    (diffFlags before after).length = min before.length after.length :=
  List.length_zipWith _ _ _

theorem diffFlags_getD (before after : List String) (j : ℕ) :
    ((diffFlags before after).getD j false = true) ↔
      (j < min before.length after.length ∧ before.getD j "" ≠ after.getD j "") := by
  induction before generalizing after j with
  | nil => simp [diffFlags]
  | cons b bs ih =>
    cases after with
    | nil => simp [diffFlags]
    | cons a as =>
      cases j with
      | zero =>
        simp [diffFlags, Nat.succ_min_succ]
      | succ j =>
        simpa [diffFlags, Nat.succ_min_succ, Nat.succ_lt_succ_iff] using ih as j

theorem diffFlags_getD_false {before after : List String} {j : ℕ}
    (h : min before.length after.length ≤ j) :
    (diffFlags before after).getD j false = false :=
  List.getD_eq_default _ _ (by rw [length_diffFlags]; exact h)

theorem count_true_diffFlags (before after : List String) :
    (diffFlags before after).count true = mismatchCount before after := by
  induction before generalizing after with
  | nil => simp [diffFlags, mismatchCount]
  | cons b bs ih =>
    cases after with
    | nil => simp [diffFlags, mismatchCount]
    | cons a as =>
      have hrec : mismatchCount (b :: bs) (a :: as) =
          (if b = a then 0 else 1) + mismatchCount bs as := by
        simp only [mismatchCount, List.length_cons, Nat.succ_min_succ,
          List.range_succ_eq_map, List.filter_cons, List.filter_map,
          Function.comp_def, List.getD_cons_zero, List.getD_cons_succ]
        by_cases hba : b = a
        · simp [hba]
        · simp [hba, Nat.add_comm]
      rw [hrec, ← ih as]
      simp only [diffFlags, List.zipWith_cons_cons, List.count_cons]
      by_cases hba : b = a
      · simp [hba]
      · simp [hba, Nat.add_comm]

/-! ### C1: the diff statistics -/

theorem calculateDetailedDiff_added (before after : List String) :
    ((calculateDetailedDiff before after).added : ℤ)
      = max 0 ((after.length : ℤ) - (before.length : ℤ)) := by
  simp only [calculateDetailedDiff]
  split_ifs with h
  · rw [Int.natAbs_of_nonneg (le_of_lt h), max_eq_right (le_of_lt h)]
  · rw [max_eq_left (not_lt.mp h)]
    simp

theorem calculateDetailedDiff_removed (before after : List String) :
    ((calculateDetailedDiff before after).removed : ℤ)
      = max 0 ((before.length : ℤ) - (after.length : ℤ)) := by
  simp only [calculateDetailedDiff]
  split_ifs with h
  · rw [← Int.abs_eq_natAbs, abs_of_neg h]
    rw [max_eq_right (by omega)]
    ring
  · rw [max_eq_left (by omega)]
    simp

theorem calculateDetailedDiff_modified (before after : List String) :
    (calculateDetailedDiff before after).modified = mismatchCount before after := by
  simpa only [calculateDetailedDiff] using count_true_diffFlags before after

theorem calculateDetailedDiff_cp (before after : List String) :
    (calculateDetailedDiff before after).changePercentage
      = specChangePercentage before after := by
  simp only [calculateDetailedDiff, specChangePercentage, count_true_diffFlags]
  split_ifs with h1 h2 h2
  · omega
  · congr 1
    ring
  · rfl
  · omega

theorem calculateDiff_cp (before after : List String) :
    (calculateDiff before after).changePercentage
      = specChangePercentageNoDelta before after := by
  simp only [calculateDiff, specChangePercentageNoDelta, count_true_diffFlags]
  split_ifs with h1 h2 h2
  · omega
  · congr 1
    ring
  · rfl
  · omega

/-- Claim C1, amended.  `calculateDetailedDiff` returns exactly the claimed
statistics: `added = max(0, Δ)`, `removed = max(0, −Δ)`, `modified` = the
positional mismatch count, and `change_percentage` given by the claimed
rounded formula (0 when both inputs are empty).  `calculateDiff` of
collect-feedback.js agrees on `added`/`removed`/`modified` but computes its
change percentage *without* the length-delta term.  On the claim's example
both return `modified = 1`, `added = 0`, `removed = 0`,
`change_percentage = 33.3`. -/
theorem c1_diff_engine_amended (before after : List String) :
    ((calculateDetailedDiff before after).added : ℤ)
        = max 0 ((after.length : ℤ) - (before.length : ℤ))
    ∧ ((calculateDetailedDiff before after).removed : ℤ)
        = max 0 ((before.length : ℤ) - (after.length : ℤ))
    ∧ (calculateDetailedDiff before after).modified = mismatchCount before after
    ∧ (calculateDetailedDiff before after).changePercentage = specChangePercentage before after
    ∧ (calculateDiff before after).added = (calculateDetailedDiff before after).added
    ∧ (calculateDiff before after).removed = (calculateDetailedDiff before after).removed
    ∧ (calculateDiff before after).modified = (calculateDetailedDiff before after).modified
    ∧ (calculateDiff before after).changePercentage = specChangePercentageNoDelta before after
    ∧ (calculateDetailedDiff ["a", "b", "c"] ["a", "x", "c"]).added = 0
    ∧ (calculateDetailedDiff ["a", "b", "c"] ["a", "x", "c"]).removed = 0
    ∧ (calculateDetailedDiff ["a", "b", "c"] ["a", "x", "c"]).modified = 1
    ∧ (calculateDetailedDiff ["a", "b", "c"] ["a", "x", "c"]).changePercentage = 333/10
    ∧ (calculateDiff ["a", "b", "c"] ["a", "x", "c"]).changePercentage = 333/10 := by
  refine ⟨calculateDetailedDiff_added before after, calculateDetailedDiff_removed before after,
    calculateDetailedDiff_modified before after, calculateDetailedDiff_cp before after,
    rfl, rfl, rfl, calculateDiff_cp before after, rfl, rfl, by decide, ?_, ?_⟩
  · rw [calculateDetailedDiff_cp]
    have h1 : mismatchCount ["a", "b", "c"] ["a", "x", "c"] = 1 := by decide
    simp only [specChangePercentage, h1, List.length_cons, List.length_nil]
    norm_num
    rw [round1_eq _ 333 (by norm_num) (by norm_num)]
    norm_num
  · rw [calculateDiff_cp]
    have h1 : mismatchCount ["a", "b", "c"] ["a", "x", "c"] = 1 := by decide
    simp only [specChangePercentageNoDelta, h1, List.length_cons, List.length_nil]
    norm_num
    rw [round1_eq _ 333 (by norm_num) (by norm_num)]
    norm_num

/-- Claim C1, counterexample to the claim as stated: on
`before = ["a"]`, `after = ["a","b"]` the session-end diff
`calculateDiff` returns `change_percentage = 0`, while the claimed formula
`round(100 × (modified + |Δ|) / max, 1)` gives `50`. -/
theorem c1_simple_diff_counterexample :
    (calculateDiff ["a"] ["a", "b"]).changePercentage = 0
    ∧ specChangePercentage ["a"] ["a", "b"] = 50
    ∧ (0 : ℚ) ≠ 50 := by
  refine ⟨?_, ?_, by norm_num⟩
  · rw [calculateDiff_cp]
    have h1 : mismatchCount ["a"] ["a", "b"] = 0 := by decide
    simp only [specChangePercentageNoDelta, h1, List.length_cons, List.length_nil]
    norm_num
    rw [round1_eq _ 0 (by norm_num) (by norm_num)]
    norm_num
  · have h1 : mismatchCount ["a"] ["a", "b"] = 0 := by decide
    simp only [specChangePercentage, h1, List.length_cons, List.length_nil]
    norm_num
    rw [round1_eq _ 500 (by norm_num) (by norm_num)]
    norm_num

/-! ### Satisfaction scorer (collect-feedback.js, lines 299-311) -/

/-- Per-file record shape consumed by `calculateSatisfactionScore`
(`m.modifications.percentage_changed` flattened to the one field used). -/
structure FileMod where
  percentage_changed : ℚ
deriving DecidableEq, Repr

/-- `calculateSatisfactionScore`: 100 on an empty modification list,
otherwise `Math.max(0, Math.min(100, Math.round(100 - avgChange)))` where
`avgChange` is the `reduce`-computed mean of the per-file percentages. -/
def calculateSatisfactionScore (modifications : List FileMod) : ℚ :=
  if modifications.length = 0 then 100
  else
    let avgChange := modifications.foldl (fun sum m => sum + m.percentage_changed) 0 /
      (modifications.length : ℚ)
    max 0 (min 100 ((jsRound (100 - avgChange) : ℤ) : ℚ))

/-- The claim's wording for the session score: `100 − mean`, clamped to
`[0,100]`, with no rounding. -/
def claimedSessionSatisfaction (ps : List ℚ) : ℚ :=
  if ps = [] then 100 else max 0 (min 100 (100 - ps.sum / (ps.length : ℚ)))

/-- The amended wording: `100 − mean` rounded half-up to an integer, then
clamped to `[0,100]`. -/
def specSessionSatisfaction (ps : List ℚ) : ℚ :=
  if ps = [] then 100
  else max 0 (min 100 ((⌊(100 - ps.sum / (ps.length : ℚ)) + 1/2⌋ : ℤ) : ℚ))

theorem foldl_add_percentage (l : List FileMod) (a : ℚ) :
    l.foldl (fun sum m => sum + m.percentage_changed) a
      = a + (l.map (fun m => m.percentage_changed)).sum := by
  induction l generalizing a with
  | nil => simp
  | cons x xs ih => simp [ih, add_assoc]

/-- Evaluation helper: the score of a non-empty session whose mean is `q`
and whose rounded value `z` already lies inside the clamp range. -/
theorem score_eval {ms : List FileMod} {q : ℚ} {z : ℤ}
    (hne : ¬ ms.length = 0)
    (hq : (ms.map (fun x => x.percentage_changed)).sum / (ms.length : ℚ) = q)
    (h₁ : (z : ℚ) ≤ (100 - q) + 1/2) (h₂ : (100 - q) + 1/2 < z + 1)
    (h0 : (0 : ℚ) ≤ (z : ℚ)) (h100 : (z : ℚ) ≤ 100) :
    calculateSatisfactionScore ms = (z : ℚ) := by
  simp only [calculateSatisfactionScore, foldl_add_percentage, zero_add]
  rw [if_neg hne, hq, jsRound_eq _ z h₁ h₂, min_eq_right h100, max_eq_right h0]

/-- Claim C2, amended.  The session satisfaction score is 100 when no files
were modified; otherwise it is `100 − mean(change_percentage)` **rounded
half-up to an integer** and then clamped to `[0,100]` — the code applies
`Math.round` before clamping, which the claim omitted.  The claim's example
is unaffected: files at 5% and 45% give a score of 75. -/
theorem c2_satisfaction_amended :
    (∀ ms : List FileMod,
      calculateSatisfactionScore ms
        = specSessionSatisfaction (ms.map (fun m => m.percentage_changed)))
    ∧ calculateSatisfactionScore [] = 100
    ∧ calculateSatisfactionScore [⟨5⟩, ⟨45⟩] = 75 := by
  have hmain : ∀ ms : List FileMod,
      calculateSatisfactionScore ms
        = specSessionSatisfaction (ms.map (fun m => m.percentage_changed)) := by
    intro ms
    simp only [calculateSatisfactionScore, specSessionSatisfaction, foldl_add_percentage,
      zero_add, jsRound, List.length_map, List.length_eq_zero, List.map_eq_nil_iff]
  refine ⟨hmain, by simp [calculateSatisfactionScore], ?_⟩
  exact_mod_cast score_eval (q := 25) (z := 75) (by simp) (by norm_num) (by norm_num)
    (by norm_num) (by norm_num) (by norm_num)

/-- Claim C2, counterexample to the claim as stated: one modified file at
33.3% gives `100 − 33.3 = 66.7`, but the code returns the rounded value 67,
not 66.7. -/
theorem c2_satisfaction_counterexample :
    calculateSatisfactionScore [⟨333/10⟩] = 67
    ∧ claimedSessionSatisfaction [333/10] = 667/10
    ∧ (67 : ℚ) ≠ 667/10 := by
  refine ⟨?_, ?_, by norm_num⟩
  · exact_mod_cast score_eval (q := 333/10) (z := 67) (by simp) (by norm_num) (by norm_num)
      (by norm_num) (by norm_num) (by norm_num)
  · simp only [claimedSessionSatisfaction]
    norm_num

theorem forall2_sum_le {ps qs : List FileMod}
    (h : List.Forall₂ (fun a b => a.percentage_changed ≤ b.percentage_changed) ps qs) :
    (ps.map (fun m => m.percentage_changed)).sum
      ≤ (qs.map (fun m => m.percentage_changed)).sum := by
  induction h with
  | nil => exact le_refl _
  | cons h1 _ ih => simpa using add_le_add h1 ih

/-- Claim C5: the session satisfaction score always lies in `[0,100]`, and
is monotonically non-increasing in each per-file change percentage: raising
any (or all) of the percentages pointwise can only lower the score. -/
theorem c5_satisfaction_monotone (ps qs : List FileMod) :
    (0 ≤ calculateSatisfactionScore ps ∧ calculateSatisfactionScore ps ≤ 100)
    ∧ (List.Forall₂ (fun a b => a.percentage_changed ≤ b.percentage_changed) ps qs →
        calculateSatisfactionScore qs ≤ calculateSatisfactionScore ps) := by
  constructor
  · simp only [calculateSatisfactionScore]
    split_ifs with h
    · norm_num
    · constructor
      · exact le_max_left 0 _
      · exact max_le (by norm_num) (min_le_left _ _)
  · intro h
    have hlen : ps.length = qs.length := h.length_eq
    cases ps with
    | nil =>
      cases qs with
      | nil => exact le_refl _
      | cons q qs' => exact absurd hlen (by simp)
    | cons p ps' =>
      cases qs with
      | nil => exact absurd hlen (by simp)
      | cons q qs' =>
        have hsum : ((p :: ps').map (fun m => m.percentage_changed)).sum
            ≤ ((q :: qs').map (fun m => m.percentage_changed)).sum :=
          forall2_sum_le h
        simp only [calculateSatisfactionScore, foldl_add_percentage, zero_add,
          List.length_cons]
        have hn : (0 : ℚ) < ((ps'.length + 1 : ℕ) : ℚ) := by positivity
    -- mean is monotone, hence 100 − mean is antitone, floor and clamps monotone
        have hmean : ((p :: ps').map (fun m => m.percentage_changed)).sum /
              (((ps'.length + 1 : ℕ) : ℚ))
            ≤ ((q :: qs').map (fun m => m.percentage_changed)).sum /
              (((qs'.length + 1 : ℕ) : ℚ)) := by
          have : qs'.length = ps'.length := by
            simpa using hlen.symm
          rw [this]
          exact (div_le_div_iff_of_pos_right hn).mpr hsum
        have hmono : jsRound (100 - ((q :: qs').map (fun m => m.percentage_changed)).sum /
              (((qs'.length + 1 : ℕ) : ℚ)))
            ≤ jsRound (100 - ((p :: ps').map (fun m => m.percentage_changed)).sum /
              (((ps'.length + 1 : ℕ) : ℚ))) := by
          apply jsRound_mono
          linarith
        simp only [if_neg (by simp : ¬(ps'.length + 1 = 0)), if_neg (by simp : ¬(qs'.length + 1 = 0))]
        refine max_le_max (le_refl 0) (min_le_min (le_refl 100) ?_)
        exact_mod_cast hmono

/-- Witness for C5 at a concrete pair of sessions. -/
theorem c5_satisfaction_monotone_witness :
    List.Forall₂ (fun a b => a.percentage_changed ≤ b.percentage_changed)
      ([⟨10⟩] : List FileMod) ([⟨20⟩] : List FileMod)
    ∧ 0 ≤ calculateSatisfactionScore [⟨10⟩]
    ∧ calculateSatisfactionScore [⟨10⟩] ≤ 100
    ∧ calculateSatisfactionScore [⟨20⟩] ≤ calculateSatisfactionScore [⟨10⟩] := by
  have hf : List.Forall₂ (fun (a : FileMod) (b : FileMod) =>
      a.percentage_changed ≤ b.percentage_changed) [⟨10⟩] [⟨20⟩] :=
    List.Forall₂.cons (by norm_num) List.Forall₂.nil
  have h := c5_satisfaction_monotone [⟨10⟩] [⟨20⟩]
  exact ⟨hf, h.1.1, h.1.2, h.2 hf⟩

/-! ### Modification classifier (detect-modifications.js, lines 221-278) -/

/-- The slice of a modification record consumed by
`analyzeModificationType`: originating skill, user action and the diff. -/
structure Modification where
  skill_name : String
  user_action : String
  diff : DetailedDiff
deriving Repr

/-- Output of `analyzeModificationType` (`modification_id` omitted: it is
threaded through unchanged and carries no information). -/
structure Analysis where
  categories : List String
  severity : String
  likely_reason : List String
deriving Repr

/-- `analyzeModificationType`: severity band on `change_percentage`
(boundaries 2/10/30), then a first-match `else if` chain for the operation
category, the region-count category, and the special reasons.  The
severity starts at `'minor'` and every band branch assigns it, so the
`[0,2)` band yields `"minor"` (category `typo_fix`) — never `"trivial"`. -/
def analyzeModificationType (m : Modification) : Analysis :=
  let changePercent := m.diff.changePercentage
  let d := m.diff
  let sevPair : String × String :=
    if changePercent < 2 then ("typo_fix", "minor")
    else if changePercent < 10 then ("minor_adjustment", "minor")
    else if changePercent < 30 then ("moderate_change", "moderate")
    else ("major_rewrite", "major")
  let opPair : List String × List String :=
    if d.removed * 2 < d.added then
      (["content_addition"], ["feature_enhancement", "missing_functionality"])
    else if d.added * 2 < d.removed then
      (["content_removal"], ["code_simplification", "remove_redundancy"])
    else if d.added + d.removed < d.modified then
      (["content_modification"], ["logic_correction", "style_adjustment"])
    else ([], [])
  let regionCat : String :=
    if d.regions.length = 1 then "focused_change"
    else if d.regions.length ≤ 3 then "multi_region_change"
    else "scattered_changes"
  let extraReasons : List String :=
    (if m.user_action = "paste" then ["external_code_integration"] else []) ++
    (if 50 < changePercent ∧ m.skill_name = "ui-ux-pro-max"
      then ["style_preference_mismatch"] else [])
  { categories := [sevPair.1] ++ opPair.1 ++ [regionCat]
    severity := sevPair.2
    likely_reason := opPair.2 ++ extraReasons }

theorem diffFlags_self (l : List String) :
    diffFlags l l = List.replicate l.length false := by
  induction l with
  | nil => rfl
  | cons x xs ih => simp [diffFlags, List.replicate_succ] at ih ⊢

theorem runsAux_all_false (n i : ℕ) : runsAux (List.replicate n false) i none = [] := by
  induction n generalizing i with
  | zero => rfl
  | succ n ih => simpa [List.replicate_succ, runsAux] using ih (i + 1)

/-- Identical snapshots produce zero modified lines, zero percentage and an
empty region list. -/
theorem calculateDetailedDiff_self (l : List String) :
    (calculateDetailedDiff l l).modified = 0
    ∧ (calculateDetailedDiff l l).changePercentage = 0
    ∧ (calculateDetailedDiff l l).regions = [] := by
  have hflags := diffFlags_self l
  have hcount : (diffFlags l l).count true = 0 := by
    rw [hflags]
    simp [List.count_replicate]
  refine ⟨?_, ?_, ?_⟩
  · simpa only [calculateDetailedDiff] using hcount
  · simp only [calculateDetailedDiff, hcount, sub_self]
    split_ifs with h
    · simpa using round1_zero
    · rfl
  · simp only [calculateDetailedDiff, sub_self, hflags]
    have h1 : ¬ (0 : ℤ) < 0 := by norm_num
    rw [if_neg h1, if_neg (by norm_num), runsAux_all_false]

/-- Claim C3, counterexample to the claim as stated: a diff with
`change_percentage = 0` (e.g. identical snapshots) is classified with
severity `"minor"`, not `"trivial"` — the classifier's severity range is
`{minor, moderate, major}` and never produces `"trivial"`. -/
theorem c3_severity_counterexample :
    (analyzeModificationType ⟨"s", "edit", ⟨0, 0, 0, 0, []⟩⟩).severity = "minor"
    ∧ "minor" ≠ "trivial" := by
  constructor
  · simp only [analyzeModificationType]
    rw [if_pos (by norm_num : (0 : ℚ) < 2)]
  · decide

/-- Claim C3, amended.  The severity bands on `change_percentage` with
boundaries 2, 10, 30 form a total non-overlapping partition, but the band
below 2 is classified as severity `"minor"` with category `"typo_fix"`
(the spec's name `"trivial"` does not occur): `(−∞,2) ↦ minor/typo_fix`,
`[2,10) ↦ minor/minor_adjustment`, `[10,30) ↦ moderate/moderate_change`,
`[30,∞) ↦ major/major_rewrite`; exactly one band category is emitted, and
identical before/after snapshots (percentage 0) get severity `"minor"`. -/
theorem c3_severity_bands_amended (m : Modification) :
    (m.diff.changePercentage < 2 →
      (analyzeModificationType m).severity = "minor"
      ∧ "typo_fix" ∈ (analyzeModificationType m).categories)
    ∧ (2 ≤ m.diff.changePercentage → m.diff.changePercentage < 10 →
      (analyzeModificationType m).severity = "minor"
      ∧ "minor_adjustment" ∈ (analyzeModificationType m).categories)
    ∧ (10 ≤ m.diff.changePercentage → m.diff.changePercentage < 30 →
      (analyzeModificationType m).severity = "moderate"
      ∧ "moderate_change" ∈ (analyzeModificationType m).categories)
    ∧ (30 ≤ m.diff.changePercentage →
      (analyzeModificationType m).severity = "major"
      ∧ "major_rewrite" ∈ (analyzeModificationType m).categories)
    ∧ (analyzeModificationType m).categories.countP
        (fun c => decide (c = "typo_fix" ∨ c = "minor_adjustment"
          ∨ c = "moderate_change" ∨ c = "major_rewrite")) = 1
    ∧ (∀ (ls : List String) (sk ua : String),
        (analyzeModificationType ⟨sk, ua, calculateDetailedDiff ls ls⟩).severity = "minor") := by
  refine ⟨?_, ?_, ?_, ?_, ?_, ?_⟩
  · intro h1
    simp only [analyzeModificationType, if_pos h1]
    exact ⟨by simp, by simp⟩
  · intro h1 h2
    simp only [analyzeModificationType, if_neg (not_lt.mpr h1), if_pos h2]
    exact ⟨by simp, by simp⟩
  · intro h1 h2
    simp only [analyzeModificationType, if_neg (not_lt.mpr (by linarith : (2:ℚ) ≤ m.diff.changePercentage)),
      if_neg (not_lt.mpr h1), if_pos h2]
    exact ⟨by simp, by simp⟩
  · intro h1
    simp only [analyzeModificationType, if_neg (not_lt.mpr (by linarith : (2:ℚ) ≤ m.diff.changePercentage)),
      if_neg (not_lt.mpr (by linarith : (10:ℚ) ≤ m.diff.changePercentage)),
      if_neg (not_lt.mpr h1)]
    exact ⟨by simp, by simp⟩
  · simp only [analyzeModificationType]
    split_ifs <;> simp [List.countP_cons, List.countP_append]
  · intro ls sk ua
    have h0 := (calculateDetailedDiff_self ls).2.1
    simp only [analyzeModificationType, h0]
    rw [if_pos (by norm_num : (0 : ℚ) < 2)]

/-- Witness for C3 at `change_percentage = 5`. -/
theorem c3_severity_bands_witness :
    (2 : ℚ) ≤ 5 ∧ (5 : ℚ) < 10
    ∧ (analyzeModificationType ⟨"s", "edit", ⟨0, 0, 0, 5, []⟩⟩).severity = "minor"
    ∧ "minor_adjustment" ∈ (analyzeModificationType ⟨"s", "edit", ⟨0, 0, 0, 5, []⟩⟩).categories := by
  have h := (c3_severity_bands_amended ⟨"s", "edit", ⟨0, 0, 0, 5, []⟩⟩).2.1
    (by norm_num) (by norm_num)
  exact ⟨by norm_num, by norm_num, h.1, h.2⟩

/-- Claim C4, counterexample to the claim as stated: on the reachable diff
of `["a","b"]` → `["x","y","z"]` (added = 1, removed = 0, modified = 2)
both `added > 2·removed` and `modified > added + removed` hold, yet the
classifier emits only `content_addition`: the operation tags come from a
first-match `else if` chain and are mutually exclusive, not additive. -/
theorem c4_operation_tags_counterexample :
    (calculateDetailedDiff ["a", "b"] ["x", "y", "z"]).added = 1
    ∧ (calculateDetailedDiff ["a", "b"] ["x", "y", "z"]).removed = 0
    ∧ (calculateDetailedDiff ["a", "b"] ["x", "y", "z"]).modified = 2
    ∧ "content_addition" ∈ (analyzeModificationType
        ⟨"s", "edit", calculateDetailedDiff ["a", "b"] ["x", "y", "z"]⟩).categories
    ∧ "content_modification" ∉ (analyzeModificationType
        ⟨"s", "edit", calculateDetailedDiff ["a", "b"] ["x", "y", "z"]⟩).categories := by
  refine ⟨by decide, by decide, by decide, ?_, ?_⟩
  · simp only [analyzeModificationType]
    have ha : (calculateDetailedDiff ["a", "b"] ["x", "y", "z"]).removed * 2
        < (calculateDetailedDiff ["a", "b"] ["x", "y", "z"]).added := by decide
    rw [if_pos ha]
    split_ifs <;> simp
  · simp only [analyzeModificationType]
    have ha : (calculateDetailedDiff ["a", "b"] ["x", "y", "z"]).removed * 2
        < (calculateDetailedDiff ["a", "b"] ["x", "y", "z"]).added := by decide
    rw [if_pos ha]
    split_ifs <;> simp

/-- Claim C4, amended.  The three operation-tag conditions are evaluated as
a first-match `else if` chain: `added > 2·removed` emits only
`content_addition` (reasons feature_enhancement, missing_functionality);
otherwise `removed > 2·added` emits only `content_removal` (reasons
code_simplification, remove_redundancy); otherwise
`modified > added + removed` emits only `content_modification` (reasons
logic_correction, style_adjustment).  At most one operation tag is emitted
per diff — the tags are mutually exclusive, not additive. -/
theorem c4_operation_tags_amended (m : Modification) :
    (m.diff.removed * 2 < m.diff.added →
      "content_addition" ∈ (analyzeModificationType m).categories
      ∧ "feature_enhancement" ∈ (analyzeModificationType m).likely_reason
      ∧ "missing_functionality" ∈ (analyzeModificationType m).likely_reason)
    ∧ (¬ m.diff.removed * 2 < m.diff.added → m.diff.added * 2 < m.diff.removed →
      "content_removal" ∈ (analyzeModificationType m).categories
      ∧ "code_simplification" ∈ (analyzeModificationType m).likely_reason
      ∧ "remove_redundancy" ∈ (analyzeModificationType m).likely_reason)
    ∧ (¬ m.diff.removed * 2 < m.diff.added → ¬ m.diff.added * 2 < m.diff.removed →
        m.diff.added + m.diff.removed < m.diff.modified →
      "content_modification" ∈ (analyzeModificationType m).categories
      ∧ "logic_correction" ∈ (analyzeModificationType m).likely_reason
      ∧ "style_adjustment" ∈ (analyzeModificationType m).likely_reason)
    ∧ (analyzeModificationType m).categories.countP
        (fun c => decide (c = "content_addition" ∨ c = "content_removal"
          ∨ c = "content_modification")) ≤ 1 := by
  refine ⟨?_, ?_, ?_, ?_⟩
  · intro h1
    simp only [analyzeModificationType, if_pos h1]
    refine ⟨by simp, by simp, by simp⟩
  · intro h1 h2
    simp only [analyzeModificationType, if_neg h1, if_pos h2]
    refine ⟨by simp, by simp, by simp⟩
  · intro h1 h2 h3
    simp only [analyzeModificationType, if_neg h1, if_neg h2, if_pos h3]
    refine ⟨by simp, by simp, by simp⟩
  · simp only [analyzeModificationType]
    split_ifs <;> simp [List.countP_cons, List.countP_append]

/-- Witness for C4 on the counterexample diff. -/
theorem c4_operation_tags_witness :
    (calculateDetailedDiff ["a", "b"] ["x", "y", "z"]).removed * 2
      < (calculateDetailedDiff ["a", "b"] ["x", "y", "z"]).added
    ∧ "content_addition" ∈ (analyzeModificationType
        ⟨"s", "edit", calculateDetailedDiff ["a", "b"] ["x", "y", "z"]⟩).categories
    ∧ "feature_enhancement" ∈ (analyzeModificationType
        ⟨"s", "edit", calculateDetailedDiff ["a", "b"] ["x", "y", "z"]⟩).likely_reason := by
  have h := (c4_operation_tags_amended
    ⟨"s", "edit", calculateDetailedDiff ["a", "b"] ["x", "y", "z"]⟩).1 (by decide)
  exact ⟨by decide, h.1, h.2.1⟩

/-- Claim C9: a diff with zero affected regions (e.g. identical snapshots)
is tagged `multi_region_change`, not `focused_change` and not
`scattered_changes` — only a region count of exactly 1 is focused, and any
count ≤ 3 falls into the multi-region branch. -/
theorem c9_zero_regions_multi_region (m : Modification)
    (h : m.diff.regions = []) :
    "multi_region_change" ∈ (analyzeModificationType m).categories
    ∧ "focused_change" ∉ (analyzeModificationType m).categories
    ∧ "scattered_changes" ∉ (analyzeModificationType m).categories := by
  have hlen : m.diff.regions.length = 0 := by rw [h]; rfl
  simp only [analyzeModificationType, hlen]
  norm_num
  constructor
  · split_ifs <;> simp
  · constructor
    · split_ifs <;> simp
    · split_ifs <;> simp

/-- Witness for C9: identical ten-line snapshots give an empty region list
and the `multi_region_change` tag. -/
theorem c9_zero_regions_witness :
    (calculateDetailedDiff (List.replicate 10 "line") (List.replicate 10 "line")).regions = []
    ∧ "multi_region_change" ∈ (analyzeModificationType ⟨"s", "edit",
        calculateDetailedDiff (List.replicate 10 "line") (List.replicate 10 "line")⟩).categories := by
  have hreg := (calculateDetailedDiff_self (List.replicate 10 "line")).2.2
  have h := c9_zero_regions_multi_region ⟨"s", "edit",
    calculateDetailedDiff (List.replicate 10 "line") (List.replicate 10 "line")⟩ hreg
  exact ⟨hreg, h.1⟩

/-! ### Hook models

Each hook's fallible filesystem primitives are oracles of type `Except`;
the hook body sequences them exactly as the JavaScript `try` block does,
and the surrounding `catch` is the error branch of each `match`.  `writes`
records, in order, which persistent records were written.  JavaScript's
module-level `modificationCache` is threaded as explicit state. -/

/-- One entry of a file's modification history (`{timestamp, content, diff}`). -/
structure HistEntry where
  timestamp : String
  content : String
  diff : DetailedDiff

/-- The `modificationCache` `Map`: insertion-ordered association list. -/
abbrev Cache := List (String × List HistEntry)

/-- `Map.set`: overwrite in place on a hit, append on a miss. -/
def cacheSet (c : Cache) (k : String) (v : List HistEntry) : Cache :=
  if (List.lookup k c).isSome then
    c.map (fun p => if p.1 = k then (k, v) else p)
  else c ++ [(k, v)]

/-- `cleanupCache`: evict oldest entries beyond `MAX_CACHE_SIZE = 100`. -/
def cleanupCache (c : Cache) : Cache :=
  if 100 < c.length then c.drop (c.length - 100) else c

/-- File-edit context consumed by `detectModifications`; `none` models an
absent (or falsy) field. -/
structure EditContext where
  generatedBySkill : Option String
  filePath : String
  previousContent : Option String
  newContent : Option String
  sessionId : Option String
  editType : Option String
  userAction : Option String

/-- Environment oracles for `detectModifications`: directory creation, the
history-file read, and the two record writes of `saveModification`. -/
structure DetectEnv where
  now : String
  ensureDirs : Except String Unit
  loadHistory : String → Except String (List HistEntry)
  writeRecord : Except String Unit
  writeHistory : Except String Unit

/-- Result of one `detectModifications` invocation. -/
structure DetectResult where
  allow : Bool
  cache : Cache
  writes : List String
  logged : Option String

/-- JavaScript `split('\n')`. -/
def splitLines (s : String) : List String := s.splitOn "\x0a"

/-- The OnFileEdit hook `detectModifications` (detect-modifications.js,
lines 33-60 plus its helpers): ensure directories, skip files without
`generatedBySkill`, record the modification (loading history on a cache
miss — that read's own failure is swallowed to `[]`), analyze, save, and
clean the cache; any error escaping a step is caught and the hook still
returns `allow = true`. -/
def detectModifications (env : DetectEnv) (cache : Cache) (ctx : EditContext) : DetectResult :=
  match env.ensureDirs with
  | .error e => { allow := true, cache := cache, writes := [], logged := some e }
  | .ok _ =>
    match ctx.generatedBySkill with
    | none => { allow := true, cache := cache, writes := [], logged := none }
    | some skill =>
      let history₀ : List HistEntry :=
        match List.lookup ctx.filePath cache with
        | some h => h
        | none =>
          match env.loadHistory ctx.filePath with
          | .ok h => h
          | .error _ => []
      let previousContent : String :=
        match history₀.getLast? with
        | some entry => entry.content
        | none => ctx.previousContent.getD ""
      let currentContent : String := ctx.newContent.getD ""
      let diff := calculateDetailedDiff (splitLines previousContent) (splitLines currentContent)
      let modification : Modification :=
        { skill_name := skill, user_action := ctx.userAction.getD "edit", diff := diff }
      let _analysis := analyzeModificationType modification
      let history₁ := history₀ ++ [{ timestamp := env.now, content := currentContent, diff := diff }]
      let history₂ := if 50 < history₁.length then history₁.drop (history₁.length - 50) else history₁
      let cache₂ := cacheSet cache ctx.filePath history₂
      match env.writeRecord with
      | .error e => { allow := true, cache := cache₂, writes := [], logged := some e }
      | .ok _ =>
        match env.writeHistory with
        | .error e =>
          { allow := true, cache := cache₂, writes := ["modification_record"], logged := some e }
        | .ok _ =>
          { allow := true, cache := cleanupCache cache₂,
            writes := ["modification_record", "history_file"], logged := none }

/-- Result of a cache-free hook invocation. -/
structure HookResult where
  allow : Bool
  writes : List String
  logged : Option String

/-- Environment oracles for `recordExecution`: the execution-data write,
the index read and the index write of `saveExecutionData`/`updateIndex`. -/
structure ExecEnv where
  writeData : Except String Unit
  readIndex : Except String (List String)
  writeIndex : Except String Unit

/-- PostToolUse context for `recordExecution`. -/
structure ExecContext where
  tool : String
  skill : Option String
  args : Option String
  result : Option String

/-- The PostToolUse hook `recordExecution` (record-execution.js, lines
28-48): skip non-Skill tools, collect data (pure), then
`saveExecutionData` = data-file write followed by index read + write; any
error is caught and the hook still returns `allow = true`. -/
def recordExecution (env : ExecEnv) (ctx : ExecContext) : HookResult :=
  if ctx.tool ≠ "Skill" then { allow := true, writes := [], logged := none }
  else
    match env.writeData with
    | .error e => { allow := true, writes := [], logged := some e }
    | .ok _ =>
      match env.readIndex with
      | .error e => { allow := true, writes := ["execution_record"], logged := some e }
      | .ok _ =>
        match env.writeIndex with
        | .error e => { allow := true, writes := ["execution_record"], logged := some e }
        | .ok _ => { allow := true, writes := ["execution_record", "index_file"], logged := none }

/-- One tool use inside a message (`toolUse.input` flattened). -/
structure ToolUse where
  name : String
  file_path : Option String
  content : Option String
  new_string : Option String

/-- One message of the session history. -/
structure Message where
  role : String
  toolUses : List ToolUse

/-- One entry of `context.filesModified`. -/
structure FileInfo where
  path : String
  generatedBySkill : Option String

/-- An explicit user rating. -/
structure Rating where
  score : ℚ
  comment : Option String

/-- SessionEnd context for `collectFeedback`. -/
structure SessionContext where
  filesModified : List FileInfo
  messageHistory : List Message
  userRating : Option Rating

/-- Environment oracles for `collectFeedback`: directory creation, the
per-file final-content read, the feedback write and the rating write. -/
structure FeedbackEnv where
  ensureDirs : Except String Unit
  readFile : String → Except String String
  writeFeedback : Except String Unit
  writeRating : Except String Unit

/-- JavaScript `a || b` on possibly-absent strings: the empty string is
falsy and falls through to the default. -/
def jsStrOr (o : Option String) (d : String) : String :=
  match o with
  | some s => if s = "" then d else s
  | none => d

/-- The reverse scan of `findClaudeGeneratedVersion` over an
already-reversed history: first assistant message containing a Write/Edit
of the file wins, using `input.content || input.new_string || ''`. -/
def findVersionAux (filePath : String) : List Message → Option String
  | [] => none
  | m :: rest =>
    if m.role = "assistant" then
      match m.toolUses.find? (fun tu =>
          (tu.name = "Write" ∨ tu.name = "Edit") ∧ tu.file_path = some filePath) with
      | some tu => some (jsStrOr tu.content (jsStrOr tu.new_string ""))
      | none => findVersionAux filePath rest
    else findVersionAux filePath rest

/-- `findClaudeGeneratedVersion` (collect-feedback.js, lines 155-174). -/
def findClaudeGeneratedVersion (filePath : String) (history : List Message) : Option String :=
  findVersionAux filePath history.reverse

/-- `analyzeFileModification` (collect-feedback.js, lines 116-147): `none`
when the file has no generated version or its own `try/catch` swallowed a
read error; otherwise the per-file diff record (reduced to the
`percentage_changed` field consumed downstream). -/
def analyzeFileModification (env : FeedbackEnv) (ctx : SessionContext) (file : FileInfo) :
    Option FileMod :=
  match findClaudeGeneratedVersion file.path ctx.messageHistory with
  | none => none
  | some claudeVersion =>
    match env.readFile file.path with
    | .error _ => none
    | .ok userVersion =>
      some ⟨(calculateDiff (splitLines claudeVersion) (splitLines userVersion)).changePercentage⟩

/-- The SessionEnd hook `collectFeedback` (collect-feedback.js, lines
29-59): ensure directories, analyze the modified files (per-file errors are
swallowed), write the feedback record, then the rating record when an
explicit rating exists; any escaping error is caught and the hook still
returns `allow = true`. -/
def collectFeedback (env : FeedbackEnv) (ctx : SessionContext) : HookResult :=
  match env.ensureDirs with
  | .error e => { allow := true, writes := [], logged := some e }
  | .ok _ =>
    let mods := ctx.filesModified.filterMap (analyzeFileModification env ctx)
    let _satisfaction := calculateSatisfactionScore mods
    match env.writeFeedback with
    | .error e => { allow := true, writes := [], logged := some e }
    | .ok _ =>
      match ctx.userRating with
      | none => { allow := true, writes := ["feedback_record"], logged := none }
      | some _ =>
        match env.writeRating with
        | .error e => { allow := true, writes := ["feedback_record"], logged := some e }
        | .ok _ => { allow := true, writes := ["feedback_record", "rating_record"], logged := none }

/-- Claim C7: all three ingestion hooks are fail-open.  Whatever the
context and whatever any filesystem oracle returns, each hook returns
`allow = true`; and when a step fails, no record write after that step is
performed (the directory-setup failure also leaves the in-memory cache
untouched). -/
theorem c7_hooks_fail_open :
    (∀ (env : DetectEnv) (cache : Cache) (ctx : EditContext),
      (detectModifications env cache ctx).allow = true
      ∧ (env.ensureDirs.isOk = false →
          (detectModifications env cache ctx).writes = []
          ∧ (detectModifications env cache ctx).cache = cache)
      ∧ (env.writeRecord.isOk = false → (detectModifications env cache ctx).writes = [])
      ∧ (env.writeHistory.isOk = false →
          "history_file" ∉ (detectModifications env cache ctx).writes))
    ∧ (∀ (env : ExecEnv) (ctx : ExecContext),
      (recordExecution env ctx).allow = true
      ∧ (env.writeData.isOk = false → (recordExecution env ctx).writes = [])
      ∧ (env.readIndex.isOk = false → "index_file" ∉ (recordExecution env ctx).writes)
      ∧ (env.writeIndex.isOk = false → "index_file" ∉ (recordExecution env ctx).writes))
    ∧ (∀ (env : FeedbackEnv) (ctx : SessionContext),
      (collectFeedback env ctx).allow = true
      ∧ (env.ensureDirs.isOk = false → (collectFeedback env ctx).writes = [])
      ∧ (env.writeFeedback.isOk = false → (collectFeedback env ctx).writes = [])
      ∧ (env.writeRating.isOk = false →
          "rating_record" ∉ (collectFeedback env ctx).writes)) := by
  refine ⟨?_, ?_, ?_⟩
  · intro env cache ctx
    rcases henv : env.ensureDirs with e | u
    · simp [detectModifications, henv]
    · rcases hgen : ctx.generatedBySkill with _ | skill
      · simp [detectModifications, henv, hgen, Except.isOk, Except.toBool]
      · rcases hrec : env.writeRecord with e | u
        · simp [detectModifications, henv, hgen, hrec, Except.isOk, Except.toBool]
        · rcases hhist : env.writeHistory with e | u
          · simp [detectModifications, henv, hgen, hrec, hhist, Except.isOk, Except.toBool]
          · simp [detectModifications, henv, hgen, hrec, hhist, Except.isOk, Except.toBool]
  · intro env ctx
    by_cases htool : ctx.tool ≠ "Skill"
    · simp [recordExecution, htool]
    · rcases hdata : env.writeData with e | u
      · simp [recordExecution, htool, hdata, Except.isOk, Except.toBool]
      · rcases hidx : env.readIndex with e | idx
        · simp [recordExecution, htool, hdata, hidx, Except.isOk, Except.toBool]
        · rcases hwidx : env.writeIndex with e | u
          · simp [recordExecution, htool, hdata, hidx, hwidx, Except.isOk, Except.toBool]
          · simp [recordExecution, htool, hdata, hidx, hwidx, Except.isOk, Except.toBool]
  · intro env ctx
    rcases henv : env.ensureDirs with e | u
    · simp [collectFeedback, henv]
    · rcases hfb : env.writeFeedback with e | u
      · simp [collectFeedback, henv, hfb, Except.isOk, Except.toBool]
      · rcases hrat : ctx.userRating with _ | r
        · simp [collectFeedback, henv, hfb, hrat, Except.isOk, Except.toBool]
        · rcases hwr : env.writeRating with e | u
          · simp [collectFeedback, henv, hfb, hrat, hwr, Except.isOk, Except.toBool]
          · simp [collectFeedback, henv, hfb, hrat, hwr, Except.isOk, Except.toBool]

/-- Witness for C7: concrete failing environments for each hook. -/
theorem c7_hooks_fail_open_witness :
    (detectModifications
        ⟨"t", Except.error "boom", fun _ => Except.ok [], Except.ok (), Except.ok ()⟩
        [] ⟨some "sk", "f.txt", none, some "x", none, none, none⟩).allow = true
    ∧ (detectModifications
        ⟨"t", Except.error "boom", fun _ => Except.ok [], Except.ok (), Except.ok ()⟩
        [] ⟨some "sk", "f.txt", none, some "x", none, none, none⟩).writes = []
    ∧ (recordExecution ⟨Except.error "disk full", Except.ok [], Except.ok ()⟩
        ⟨"Skill", some "ui", none, none⟩).allow = true
    ∧ (recordExecution ⟨Except.error "disk full", Except.ok [], Except.ok ()⟩
        ⟨"Skill", some "ui", none, none⟩).writes = []
    ∧ (collectFeedback ⟨Except.ok (), fun _ => Except.ok "", Except.error "denied", Except.ok ()⟩
        ⟨[], [], none⟩).allow = true
    ∧ (collectFeedback ⟨Except.ok (), fun _ => Except.ok "", Except.error "denied", Except.ok ()⟩
        ⟨[], [], none⟩).writes = [] := by
  have h := c7_hooks_fail_open
  have h1 := h.1 ⟨"t", Except.error "boom", fun _ => Except.ok [], Except.ok (), Except.ok ()⟩
    [] ⟨some "sk", "f.txt", none, some "x", none, none, none⟩
  have h2 := h.2.1 ⟨Except.error "disk full", Except.ok [], Except.ok ()⟩
    ⟨"Skill", some "ui", none, none⟩
  have h3 := h.2.2 ⟨Except.ok (), fun _ => Except.ok "", Except.error "denied", Except.ok ()⟩
    ⟨[], [], none⟩
  exact ⟨h1.1, (h1.2.1 rfl).1, h2.1, h2.2.1 rfl, h3.1, h3.2.2.1 rfl⟩

/-- Claim C10: an edit event without a `generatedBySkill` value is ignored:
the hook returns `allow = true`, persists nothing, and leaves the
modification cache exactly as it was. -/
theorem c10_skip_non_generated (env : DetectEnv) (cache : Cache) (ctx : EditContext)
    (h : ctx.generatedBySkill = none) :
    (detectModifications env cache ctx).allow = true
    ∧ (detectModifications env cache ctx).writes = []
    ∧ (detectModifications env cache ctx).cache = cache := by
  rcases henv : env.ensureDirs with e | u
  · simp [detectModifications, henv]
  · simp [detectModifications, henv, h]

/-- Witness for C10 on a concrete non-generated edit event. -/
theorem c10_skip_non_generated_witness :
    ((⟨none, "f.txt", some "p", some "q", none, none, none⟩ : EditContext).generatedBySkill = none)
    ∧ (detectModifications
        ⟨"t", Except.ok (), fun _ => Except.ok [], Except.ok (), Except.ok ()⟩
        [("g.txt", [])] ⟨none, "f.txt", some "p", some "q", none, none, none⟩).allow = true
    ∧ (detectModifications
        ⟨"t", Except.ok (), fun _ => Except.ok [], Except.ok (), Except.ok ()⟩
        [("g.txt", [])] ⟨none, "f.txt", some "p", some "q", none, none, none⟩).writes = []
    ∧ (detectModifications
        ⟨"t", Except.ok (), fun _ => Except.ok [], Except.ok (), Except.ok ()⟩
        [("g.txt", [])] ⟨none, "f.txt", some "p", some "q", none, none, none⟩).cache
      = [("g.txt", [])] := by
  have h := c10_skip_non_generated
    ⟨"t", Except.ok (), fun _ => Except.ok [], Except.ok (), Except.ok ()⟩
    [("g.txt", [])] ⟨none, "f.txt", some "p", some "q", none, none, none⟩ rfl
  exact ⟨rfl, h.1, h.2.1, h.2.2⟩

/-! ### Time decay (weight optimizer, `apply_time_decay`) -/

/-- `apply_time_decay` applied to one element's weight: elements unused for
more than the 30-day grace period are multiplied by
`exp(−days_since_last_use / 100)`; within the grace period the weight is
untouched. -/
noncomputable def apply_time_decay (days_since_last_use : ℕ) (weight : ℝ) : ℝ :=
  if 30 < days_since_last_use then
    weight * Real.exp (-(days_since_last_use : ℝ) / 100)
  else weight

theorem apply_time_decay_pos {d : ℕ} {x : ℝ} (hx : 0 < x) : 0 < apply_time_decay d x := by
  rw [apply_time_decay]
  split_ifs
  · exact mul_pos hx (Real.exp_pos _)
  · exact hx

theorem apply_time_decay_iterate_pos {d n : ℕ} {x : ℝ} (hx : 0 < x) :
    0 < (apply_time_decay d)^[n] x := by
  induction n with
  | zero => simpa using hx
  | succ n ih =>
    rw [Function.iterate_succ_apply']
    exact apply_time_decay_pos ih

/-- Claim C8, counterexample to the claim as stated: at
`days_since_last_use = 10` (non-negative, inside the grace period) the
decay step leaves the weight at 1 instead of multiplying it by
`exp(−10/100) ≠ 1`. -/
theorem c8_decay_counterexample :
    apply_time_decay 10 1 = 1
    ∧ (1 : ℝ) * Real.exp (-(10 : ℝ) / 100) ≠ 1 := by
  constructor
  · rw [apply_time_decay, if_neg (by norm_num)]
  · rw [one_mul]
    intro h
    have h0 : (-(10 : ℝ) / 100) = 0 := (Real.exp_eq_one_iff _).mp h
    norm_num at h0

/-- Claim C8, amended.  The decay step multiplies the weight by
`exp(−days/100)` only when `days_since_last_use` exceeds the 30-day grace
period; for `days ≤ 30` the weight is unchanged.  In all cases one step
never increases the weight and keeps it inside `[0,1]`; past the grace
period, repeated decay strictly decreases any positive weight and holds a
zero weight at zero — it never resurrects an element. -/
theorem c8_time_decay_amended (w : ℝ) (d n : ℕ) (h0 : 0 ≤ w) (h1 : w ≤ 1) :
    (30 < d → apply_time_decay d w = w * Real.exp (-(d : ℝ) / 100))
    ∧ (d ≤ 30 → apply_time_decay d w = w)
    ∧ apply_time_decay d w ≤ w
    ∧ 0 ≤ apply_time_decay d w
    ∧ apply_time_decay d w ≤ 1
    ∧ (apply_time_decay d)^[n] 0 = 0
    ∧ (30 < d → 0 < w →
        (apply_time_decay d)^[n + 1] w < (apply_time_decay d)^[n] w) := by
  have hexp_le : ∀ d' : ℕ, 30 < d' → Real.exp (-(d' : ℝ) / 100) < 1 := by
    intro d' hd
    rw [Real.exp_lt_one_iff]
    have : (0 : ℝ) < (d' : ℝ) := by positivity
    linarith
  have hstep_le : apply_time_decay d w ≤ w := by
    rw [apply_time_decay]
    split_ifs with hd
    · exact mul_le_of_le_one_right h0 (le_of_lt (hexp_le d hd))
    · exact le_refl w
  have hstep_nonneg : 0 ≤ apply_time_decay d w := by
    rw [apply_time_decay]
    split_ifs
    · exact mul_nonneg h0 (Real.exp_pos _).le
    · exact h0
  refine ⟨?_, ?_, hstep_le, hstep_nonneg, le_trans hstep_le h1, ?_, ?_⟩
  · intro hd
    rw [apply_time_decay, if_pos hd]
  · intro hd
    rw [apply_time_decay, if_neg (not_lt.mpr hd)]
  · have hfix : apply_time_decay d 0 = 0 := by
      rw [apply_time_decay]
      split_ifs <;> simp
    exact Function.iterate_fixed hfix n
  · intro hd hw
    rw [Function.iterate_succ_apply']
    have hpos : 0 < (apply_time_decay d)^[n] w := apply_time_decay_iterate_pos hw
    rw [apply_time_decay, if_pos hd]
    exact mul_lt_of_lt_one_right hpos (hexp_le d hd)

/-- Witness for C8 at weight 1/2, 40 days unused. -/
theorem c8_time_decay_witness :
    (0 : ℝ) ≤ 1/2 ∧ (1 : ℝ)/2 ≤ 1 ∧ (30 < 40)
    ∧ apply_time_decay 40 (1/2) = (1/2 : ℝ) * Real.exp (-(40 : ℝ) / 100)
    ∧ apply_time_decay 40 (1/2) ≤ (1/2 : ℝ)
    ∧ (apply_time_decay 40)^[1] (1/2) < (apply_time_decay 40)^[0] (1/2 : ℝ) := by
  have h := c8_time_decay_amended (1/2) 40 0 (by norm_num) (by norm_num)
  exact ⟨by norm_num, by norm_num, by norm_num, h.1 (by norm_num), h.2.2.1,
    h.2.2.2.2.2.2 (by norm_num) (by norm_num)⟩

/-! ### C6: the affected-region list -/

/-- Index `j` is a position (below both lengths) where the two snapshots
disagree. -/
def DiffersAt (before after : List String) (j : ℕ) : Prop :=
  j < min before.length after.length ∧ before.getD j "" ≠ after.getD j ""

/-- `[s, e]` is a maximal contiguous run of disagreeing indices: every
index in the run disagrees, and the run can be extended in neither
direction. -/
def IsMaxRun (before after : List String) (s e : ℕ) : Prop :=
  s ≤ e ∧ (∀ j, s ≤ j → j ≤ e → DiffersAt before after j)
    ∧ (s = 0 ∨ ¬ DiffersAt before after (s - 1)) ∧ ¬ DiffersAt before after (e + 1)

/-- Flag-level counterpart of `IsMaxRun` (out-of-range reads are `false`). -/
def maxRunF (F : List Bool) (s e : ℕ) : Prop :=
  s ≤ e ∧ (∀ j, s ≤ j → j ≤ e → F.getD j false = true)
    ∧ (s = 0 ∨ F.getD (s - 1) false = false) ∧ F.getD (e + 1) false = false

theorem getD_true_lt_length {F : List Bool} {j : ℕ} (h : F.getD j false = true) :
    j < F.length := by
  by_contra hc
  rw [List.getD_eq_default _ _ (le_of_not_lt hc)] at h
  exact absurd h (by decide)

theorem maxRunF_stop_unique {F : List Bool} {s e₁ e₂ : ℕ}
    (h₁ : maxRunF F s e₁) (h₂ : maxRunF F s e₂) : e₁ = e₂ := by
  obtain ⟨hse₁, hall₁, -, hend₁⟩ := h₁
  obtain ⟨hse₂, hall₂, -, hend₂⟩ := h₂
  by_contra hne
  rcases Nat.lt_or_ge e₁ e₂ with h | h
  · have ht := hall₂ (e₁ + 1) (by omega) (by omega)
    rw [hend₁] at ht
    exact absurd ht (by decide)
  · have h' : e₂ < e₁ := by omega
    have ht := hall₁ (e₂ + 1) (by omega) (by omega)
    rw [hend₂] at ht
    exact absurd ht (by decide)

theorem region_eq_mk {r : Region} {s e : ℕ} {t : RegionType}
    (h1 : r.start = s) (h2 : r.stop = e) (h3 : r.type = t) : r = ⟨s, e, t⟩ := by
  cases r
  simp_all

theorem drop_cons_getD {F : List Bool} {i : ℕ} {b : Bool} {rest : List Bool}
    (h : F.drop i = b :: rest) :
    F.getD i false = b ∧ F.drop (i + 1) = rest := by
  have hget : F[i]? = some b := by
    rw [← List.head?_drop, h]
    rfl
  constructor
  · rw [List.getD_eq_getElem?_getD, hget]
    rfl
  · rw [← List.drop_drop, h]
    rfl

theorem getD_false_of_nil_drop {F : List Bool} {i : ℕ} (h : F.drop i = []) {j : ℕ}
    (hj : i ≤ j) : F.getD j false = false := by
  have hle : F.length ≤ i := by
    by_contra hc
    have : F.drop i ≠ [] := by
      apply List.ne_nil_of_length_pos
      rw [List.length_drop]
      omega
    exact this h
  exact List.getD_eq_default _ _ (le_trans hle hj)

/-- Membership characterisation of the region loop: given the loop
invariant for `cur` at position `i`, the emitted regions are exactly the
maximal runs of the full flag list that either continue the pending run or
start at or after `i`. -/
theorem runsAux_mem (F : List Bool) :
    ∀ (l : List Bool) (i : ℕ) (cur : Option (ℕ × ℕ)),
      F.drop i = l →
      (match cur with
       | none => i = 0 ∨ F.getD (i - 1) false = false
       | some (s, e) => s ≤ e ∧ e + 1 = i
           ∧ (∀ j, s ≤ j → j ≤ e → F.getD j false = true)
           ∧ (s = 0 ∨ F.getD (s - 1) false = false)) →
      ∀ r : Region,
        (r ∈ runsAux l i cur ↔
          r.type = RegionType.modified ∧ maxRunF F r.start r.stop
          ∧ (match cur with
             | none => i ≤ r.start
             | some (s, _) => r.start = s ∨ i ≤ r.start)) := by
  intro l
  induction l with
  | nil =>
    intro i cur hdrop hinv r
    rcases cur with _ | ⟨s, e⟩
    · simp only [runsAux, List.not_mem_nil, false_iff]
      rintro ⟨-, hrun, hstart⟩
      have htrue := hrun.2.1 r.start (le_refl _) hrun.1
      rw [getD_false_of_nil_drop hdrop hstart] at htrue
      exact absurd htrue (by decide)
    · obtain ⟨hse, hei, hall, hleft⟩ := hinv
      have hrune : maxRunF F s e :=
        ⟨hse, hall, hleft, getD_false_of_nil_drop hdrop (by omega)⟩
      simp only [runsAux, List.mem_singleton]
      constructor
      · rintro rfl
        exact ⟨rfl, hrune, Or.inl rfl⟩
      · rintro ⟨htype, hrun, hstart⟩
        rcases hstart with hst | hst
        · have hrun' : maxRunF F s r.stop := by
            rw [← hst]
            exact hrun
          exact region_eq_mk hst (maxRunF_stop_unique hrun' hrune) htype
        · exfalso
          have htrue := hrun.2.1 r.start (le_refl _) hrun.1
          rw [getD_false_of_nil_drop hdrop hst] at htrue
          exact absurd htrue (by decide)
  | cons b rest ih =>
    intro i cur hdrop hinv r
    obtain ⟨hb, hrest⟩ := drop_cons_getD hdrop
    cases b
    · -- flag false at i
      rcases cur with _ | ⟨s, e⟩
      · simp only [runsAux]
        rw [ih (i + 1) none hrest (Or.inr (by simpa using hb)) r]
        constructor
        · rintro ⟨h1, h2, h3⟩
          exact ⟨h1, h2, by omega⟩
        · rintro ⟨h1, h2, h3⟩
          refine ⟨h1, h2, ?_⟩
          rcases Nat.eq_or_lt_of_le h3 with heq | hlt
          · exfalso
            have htrue := h2.2.1 r.start (le_refl _) h2.1
            rw [← heq, hb] at htrue
            exact absurd htrue (by decide)
          · omega
      · obtain ⟨hse, hei, hall, hleft⟩ := hinv
        have hmax_se : maxRunF F s e := by
          refine ⟨hse, hall, hleft, ?_⟩
          rw [show e + 1 = i from hei]
          exact hb
        simp only [runsAux, List.mem_cons]
        rw [ih (i + 1) none hrest (Or.inr (by simpa using hb)) r]
        constructor
        · rintro (rfl | ⟨h1, h2, h3⟩)
          · exact ⟨rfl, hmax_se, Or.inl rfl⟩
          · exact ⟨h1, h2, Or.inr (by omega)⟩
        · rintro ⟨h1, h2, h3⟩
          rcases h3 with h3 | h3
          · left
            have h2' : maxRunF F s r.stop := by
              rw [← h3]
              exact h2
            exact region_eq_mk h3 (maxRunF_stop_unique h2' hmax_se) h1
          · right
            refine ⟨h1, h2, ?_⟩
            rcases Nat.eq_or_lt_of_le h3 with heq | hlt
            · exfalso
              have htrue := h2.2.1 r.start (le_refl _) h2.1
              rw [← heq, hb] at htrue
              exact absurd htrue (by decide)
            · omega
    · -- flag true at i
      rcases cur with _ | ⟨s, e⟩
      · have hallii : ∀ j, i ≤ j → j ≤ i → F.getD j false = true := by
          intro j hj1 hj2
          have : j = i := by omega
          rw [this]
          exact hb
        simp only [runsAux]
        rw [ih (i + 1) (some (i, i)) hrest ⟨le_refl i, rfl, hallii, hinv⟩ r]
        constructor
        · rintro ⟨h1, h2, h3⟩
          refine ⟨h1, h2, ?_⟩
          rcases h3 with h3 | h3 <;> omega
        · rintro ⟨h1, h2, h3⟩
          refine ⟨h1, h2, ?_⟩
          rcases Nat.eq_or_lt_of_le h3 with heq | hlt
          · exact Or.inl heq.symm
          · exact Or.inr hlt
      · obtain ⟨hse, hei, hall, hleft⟩ := hinv
        have hall' : ∀ j, s ≤ j → j ≤ i → F.getD j false = true := by
          intro j hj1 hj2
          rcases Nat.lt_or_ge j i with hj | hj
          · exact hall j hj1 (by omega)
          · have : j = i := by omega
            rw [this]
            exact hb
        simp only [runsAux]
        rw [ih (i + 1) (some (s, i)) hrest ⟨by omega, rfl, hall', hleft⟩ r]
        constructor
        · rintro ⟨h1, h2, h3⟩
          refine ⟨h1, h2, ?_⟩
          rcases h3 with h3 | h3
          · exact Or.inl h3
          · exact Or.inr (by omega)
        · rintro ⟨h1, h2, h3⟩
          refine ⟨h1, h2, ?_⟩
          rcases h3 with h3 | h3
          · exact Or.inl h3
          · rcases Nat.eq_or_lt_of_le h3 with heq | hlt
            · exfalso
              rcases h2.2.2.1 with h0 | hf
              · omega
              · have he : r.start - 1 = e := by omega
                rw [he] at hf
                have htrue := hall e hse (le_refl e)
                rw [hf] at htrue
                exact absurd htrue (by decide)
            · exact Or.inr hlt

/-- Every region the loop emits carries the `modified` tag. -/
theorem runsAux_types :
    ∀ (l : List Bool) (i : ℕ) (cur : Option (ℕ × ℕ)) (r : Region),
      r ∈ runsAux l i cur → r.type = RegionType.modified := by
  intro l
  induction l with
  | nil =>
    intro i cur r hr
    rcases cur with _ | ⟨s, e⟩
    · simp [runsAux] at hr
    · simp only [runsAux, List.mem_singleton] at hr
      rw [hr]
  | cons b rest ih =>
    intro i cur r hr
    cases b
    · rcases cur with _ | ⟨s, e⟩
      · exact ih (i + 1) none r hr
      · simp only [runsAux, List.mem_cons] at hr
        rcases hr with rfl | hr
        · rfl
        · exact ih (i + 1) none r hr
    · rcases cur with _ | ⟨s, e⟩
      · exact ih (i + 1) (some (i, i)) r hr
      · exact ih (i + 1) (some (s, i)) r hr

/-- Every emitted region starts at or after the lower boundary carried by
the loop state. -/
theorem runsAux_start_lower :
    ∀ (l : List Bool) (i : ℕ) (cur : Option (ℕ × ℕ)),
      (match cur with | none => True | some p => p.1 ≤ i) →
      ∀ r ∈ runsAux l i cur,
        (match cur with | none => i | some p => p.1) ≤ r.start := by
  intro l
  induction l with
  | nil =>
    intro i cur hcur r hr
    rcases cur with _ | ⟨s, e⟩
    · simp [runsAux] at hr
    · simp only [runsAux, List.mem_singleton] at hr
      rw [hr]
  | cons b rest ih =>
    intro i cur hcur r hr
    cases b
    · rcases cur with _ | ⟨s, e⟩
      · have := ih (i + 1) none trivial r hr
        simp only at this ⊢
        omega
      · simp only [runsAux, List.mem_cons] at hr
        rcases hr with rfl | hr
        · exact le_refl s
        · have := ih (i + 1) none trivial r hr
          simp only at this hcur ⊢
          omega
    · rcases cur with _ | ⟨s, e⟩
      · have := ih (i + 1) (some (i, i)) (by simp) r hr
        simpa using this
      · have := ih (i + 1) (some (s, i)) (by simp only; omega) r hr
        simpa using this

/-- The emitted region list is strictly ordered: each region ends before
the next begins. -/
theorem runsAux_pairwise :
    ∀ (l : List Bool) (i : ℕ) (cur : Option (ℕ × ℕ)),
      (match cur with | none => True | some p => p.1 ≤ p.2 ∧ p.2 < i) →
      List.Pairwise (fun a b => a.stop < b.start) (runsAux l i cur) := by
  intro l
  induction l with
  | nil =>
    intro i cur hcur
    rcases cur with _ | ⟨s, e⟩
    · simp [runsAux]
    · simp [runsAux]
  | cons b rest ih =>
    intro i cur hcur
    cases b
    · rcases cur with _ | ⟨s, e⟩
      · exact ih (i + 1) none trivial
      · simp only at hcur
        simp only [runsAux]
        refine List.Pairwise.cons ?_ (ih (i + 1) none trivial)
        intro r hr
        have := runsAux_start_lower rest (i + 1) none trivial r hr
        simp only at this
        show e < r.start
        omega
    · rcases cur with _ | ⟨s, e⟩
      · exact ih (i + 1) (some (i, i)) (by simp only; omega)
      · simp only at hcur
        exact ih (i + 1) (some (s, i)) (by simp only; omega)

theorem differsAt_iff_getD (before after : List String) (j : ℕ) :
    DiffersAt before after j ↔ (diffFlags before after).getD j false = true := by
  unfold DiffersAt
  exact (diffFlags_getD before after j).symm

theorem maxRunF_iff_isMaxRun (before after : List String) (s e : ℕ) :
    maxRunF (diffFlags before after) s e ↔ IsMaxRun before after s e := by
  have hd := differsAt_iff_getD before after
  unfold maxRunF IsMaxRun
  constructor
  · rintro ⟨h1, h2, h3, h4⟩
    refine ⟨h1, fun j hj1 hj2 => (hd j).mpr (h2 j hj1 hj2), ?_, ?_⟩
    · rcases h3 with h | h
      · exact Or.inl h
      · refine Or.inr (fun hc => ?_)
        have := (hd _).mp hc
        rw [h] at this
        exact absurd this (by decide)
    · intro hc
      have := (hd _).mp hc
      rw [h4] at this
      exact absurd this (by decide)
  · rintro ⟨h1, h2, h3, h4⟩
    refine ⟨h1, fun j hj1 hj2 => (hd j).mp (h2 j hj1 hj2), ?_, ?_⟩
    · rcases h3 with h | h
      · exact Or.inl h
      · right
        cases hgd : (diffFlags before after).getD (s - 1) false
        · rfl
        · exact absurd ((hd _).mpr hgd) h
    · cases hgd : (diffFlags before after).getD (e + 1) false
      · rfl
      · exact absurd ((hd _).mpr hgd) h4

/-- The region component of `calculateDetailedDiff`, with the two branch
conditions restated over the natural lengths. -/
theorem calculateDetailedDiff_regions_def (before after : List String) :
    (calculateDetailedDiff before after).regions =
      (if before.length < after.length then
        runsAux (diffFlags before after) 0 none
          ++ [⟨before.length, after.length - 1, RegionType.added⟩]
      else if after.length < before.length then
        runsAux (diffFlags before after) 0 none
          ++ [⟨min before.length after.length, before.length - 1, RegionType.removed⟩]
      else runsAux (diffFlags before after) 0 none) := by
  simp only [calculateDetailedDiff]
  rcases Nat.lt_trichotomy before.length after.length with h | h | h
  · rw [if_pos (by omega : (0 : ℤ) < (after.length : ℤ) - (before.length : ℤ)), if_pos h]
  · rw [if_neg (by omega : ¬ (0 : ℤ) < (after.length : ℤ) - (before.length : ℤ)),
      if_neg (by omega : ¬ ((after.length : ℤ) - (before.length : ℤ) < 0)),
      if_neg (lt_irrefl 0), if_neg (by omega : ¬ before.length < after.length),
      if_neg (by omega : ¬ after.length < before.length)]
  · rw [if_neg (by omega : ¬ (0 : ℤ) < (after.length : ℤ) - (before.length : ℤ)),
      if_pos (by omega : (after.length : ℤ) - (before.length : ℤ) < 0),
      if_pos (Int.natAbs_pos.mpr (by omega)),
      if_neg (by omega : ¬ before.length < after.length), if_pos h]

/-- Claim C6: the affected-region list of `calculateDetailedDiff` is
strictly ordered (hence sorted and pairwise non-overlapping); its
`modified` regions are exactly the maximal contiguous runs of disagreeing
indices below `min(len(before), len(after))`; and when the lengths differ
there is exactly one non-`modified` region — the trailing `added` (resp.
`removed`) region, last in the list, whose size equals the length delta;
with equal lengths every region is `modified`. -/
theorem c6_affected_regions (before after : List String) :
    List.Pairwise (fun a b => a.stop < b.start) (calculateDetailedDiff before after).regions
    ∧ (∀ s e : ℕ,
        ((⟨s, e, RegionType.modified⟩ : Region) ∈ (calculateDetailedDiff before after).regions
          ↔ IsMaxRun before after s e))
    ∧ (before.length < after.length →
        ((calculateDetailedDiff before after).regions.filter
            (fun r => decide (r.type ≠ RegionType.modified))
          = [⟨before.length, after.length - 1, RegionType.added⟩]
        ∧ (calculateDetailedDiff before after).regions.getLast?
            = some ⟨before.length, after.length - 1, RegionType.added⟩
        ∧ (after.length - 1) + 1 - before.length = after.length - before.length))
    ∧ (after.length < before.length →
        ((calculateDetailedDiff before after).regions.filter
            (fun r => decide (r.type ≠ RegionType.modified))
          = [⟨after.length, before.length - 1, RegionType.removed⟩]
        ∧ (calculateDetailedDiff before after).regions.getLast?
            = some ⟨after.length, before.length - 1, RegionType.removed⟩
        ∧ (before.length - 1) + 1 - after.length = before.length - after.length))
    ∧ (before.length = after.length →
        ∀ r ∈ (calculateDetailedDiff before after).regions, r.type = RegionType.modified) := by
  have hmem0 : ∀ r : Region, r ∈ runsAux (diffFlags before after) 0 none ↔
      r.type = RegionType.modified ∧ maxRunF (diffFlags before after) r.start r.stop := by
    intro r
    rw [runsAux_mem (diffFlags before after) (diffFlags before after) 0 none
      (List.drop_zero _) (Or.inl rfl) r]
    constructor
    · rintro ⟨h1, h2, -⟩
      exact ⟨h1, h2⟩
    · rintro ⟨h1, h2⟩
      exact ⟨h1, h2, Nat.zero_le _⟩
  have hpw0 : List.Pairwise (fun a b => a.stop < b.start)
      (runsAux (diffFlags before after) 0 none) :=
    runsAux_pairwise (diffFlags before after) 0 none trivial
  have htypes : ∀ r ∈ runsAux (diffFlags before after) 0 none,
      r.type = RegionType.modified :=
    fun r hr => runsAux_types (diffFlags before after) 0 none r hr
  have hstop : ∀ r ∈ runsAux (diffFlags before after) 0 none,
      r.stop < min before.length after.length := by
    intro r hr
    obtain ⟨-, hrun⟩ := (hmem0 r).mp hr
    have htrue := hrun.2.1 r.stop hrun.1 (le_refl _)
    have := getD_true_lt_length htrue
    rwa [length_diffFlags] at this
  have hfilter0 : (runsAux (diffFlags before after) 0 none).filter
      (fun r => decide (r.type ≠ RegionType.modified)) = [] := by
    rw [List.filter_eq_nil_iff]
    intro r hr
    rw [htypes r hr]
    decide
  have hmemruns : ∀ s e : ℕ,
      ((⟨s, e, RegionType.modified⟩ : Region) ∈ runsAux (diffFlags before after) 0 none
        ↔ IsMaxRun before after s e) := by
    intro s e
    rw [hmem0, ← maxRunF_iff_isMaxRun]
    constructor
    · rintro ⟨-, h⟩
      exact h
    · intro h
      exact ⟨rfl, h⟩
  rcases Nat.lt_trichotomy before.length after.length with hlen | hlen | hlen
  · -- lines were added
    have hreg := calculateDetailedDiff_regions_def before after
    rw [if_pos hlen] at hreg
    have hmin : min before.length after.length = before.length :=
      Nat.min_eq_left (le_of_lt hlen)
    refine ⟨?_, ?_, ?_, ?_, ?_⟩
    · rw [hreg, List.pairwise_append]
      refine ⟨hpw0, List.pairwise_singleton _ _, ?_⟩
      intro a ha b hb
      rw [List.mem_singleton] at hb
      rw [hb]
      have := hstop a ha
      simp only
      omega
    · intro s e
      rw [hreg, List.mem_append, List.mem_singleton]
      constructor
      · rintro (h | h)
        · exact (hmemruns s e).mp h
        · exfalso
          have : RegionType.modified = RegionType.added := congrArg Region.type h
          exact absurd this (by decide)
      · intro h
        exact Or.inl ((hmemruns s e).mpr h)
    · intro _
      refine ⟨?_, ?_, by omega⟩
      · rw [hreg, List.filter_append, hfilter0]
        simp
      · rw [hreg, List.getLast?_concat]
    · intro h
      omega
    · intro h
      omega
  · -- equal lengths
    have hreg := calculateDetailedDiff_regions_def before after
    rw [if_neg (by omega), if_neg (by omega)] at hreg
    refine ⟨?_, ?_, ?_, ?_, ?_⟩
    · rw [hreg]
      exact hpw0
    · intro s e
      rw [hreg]
      exact hmemruns s e
    · intro h
      omega
    · intro h
      omega
    · intro _ r hr
      rw [hreg] at hr
      exact htypes r hr
  · -- lines were removed
    have hreg := calculateDetailedDiff_regions_def before after
    rw [if_neg (by omega), if_pos hlen] at hreg
    have hmin : min before.length after.length = after.length :=
      Nat.min_eq_right (le_of_lt hlen)
    rw [hmin] at hreg
    refine ⟨?_, ?_, ?_, ?_, ?_⟩
    · rw [hreg, List.pairwise_append]
      refine ⟨hpw0, List.pairwise_singleton _ _, ?_⟩
      intro a ha b hb
      rw [List.mem_singleton] at hb
      rw [hb]
      have := hstop a ha
      simp only
      omega
    · intro s e
      rw [hreg, List.mem_append, List.mem_singleton]
      constructor
      · rintro (h | h)
        · exact (hmemruns s e).mp h
        · exfalso
          have : RegionType.modified = RegionType.removed := congrArg Region.type h
          exact absurd this (by decide)
      · intro h
        exact Or.inl ((hmemruns s e).mpr h)
    · intro h
      omega
    · intro _
      refine ⟨?_, ?_, by omega⟩
      · rw [hreg, List.filter_append, hfilter0]
        simp
      · rw [hreg, List.getLast?_concat]
    · intro h
      omega

/-- Witness for C6 on the insertion `["a","b"]` → `["a","x","y"]`:
the trailing region is the single non-modified region. -/
theorem c6_affected_regions_witness :
    (["a", "b"] : List String).length < (["a", "x", "y"] : List String).length
    ∧ List.Pairwise (fun a b => a.stop < b.start)
        (calculateDetailedDiff ["a", "b"] ["a", "x", "y"]).regions
    ∧ (calculateDetailedDiff ["a", "b"] ["a", "x", "y"]).regions.filter
        (fun r => decide (r.type ≠ RegionType.modified))
      = [⟨2, 2, RegionType.added⟩]
    ∧ (calculateDetailedDiff ["a", "b"] ["a", "x", "y"]).regions.getLast?
      = some ⟨2, 2, RegionType.added⟩ := by
  have h := c6_affected_regions ["a", "b"] ["a", "x", "y"]
  have hlt : (["a", "b"] : List String).length < (["a", "x", "y"] : List String).length := by
    decide
  exact ⟨hlt, h.1, (h.2.2.1 hlt).1, (h.2.2.1 hlt).2.1⟩

end SelfEvolution
